import Mathlib

/-!
Verification of the pw_kvs key-value store against its specification.

The development has two layers:

* A shallow embedding of `pw_kvs/flash_memory.cc` (`FlashPartition.write`,
  `FlashPartition.erase`, `FlashPartition.isRegionErased`), translated
  directly from the source.  `PW_CHECK`-style fatal assertions are modelled
  by a distinguished `CallResult.assertFailed` outcome, since they abort the
  program rather than return a `pw::Status`.

* A model of the key-value-store engine (entry codec, init scan, Get/Put,
  garbage collection, maintenance).  The engine implementation is not part
  of the sources at hand — only its tests in
  `pw_kvs/key_value_store_binary_format_test.cc` are — so those parts are
  modelled from the specification, with the behaviour pinned by the
  repository's own tests taken as authoritative where the two differ.
-/

set_option maxRecDepth 100000

deriving instance DecidableEq for Except

namespace PwKvs

/-- `pw::Status` codes used by pw_kvs. -/
inductive Status where
  | ok
  | outOfRange
  | permissionDenied
  | invalidArgument
  | dataLoss
  | notFound
  | resourceExhausted
  | failedPrecondition
  | unavailable
  | internalError
  | unauthenticated
  deriving DecidableEq, Repr

/-- Outcome of a `FlashPartition` call: either a returned `pw::Status`, or a
fatal `PW_CHECK` assertion (which aborts instead of returning). -/
inductive CallResult where
  | status (s : Status)
  | assertFailed
  deriving DecidableEq, Repr

/-- `PW_KVS_MAX_FLASH_ALIGNMENT` (default configuration value). -/
def kMaxFlashAlignment : Nat := 256

/-- `FlashPartition` (flash_memory.cc): a bounded, optionally read-only view
of a flash memory.  `mem` maps absolute flash byte addresses to byte values;
fields mirror the C++ data members. -/
structure FlashPartition where
  mem : Nat → Nat
  startSectorIndex : Nat
  sectorCount : Nat
  sectorSize : Nat
  alignmentBytes : Nat
  readOnly : Bool
  erasedByte : Nat

namespace FlashPartition

/-- `FlashPartition::size_bytes()`. -/
def sizeBytes (p : FlashPartition) : Nat := p.sectorCount * p.sectorSize

/-- `FlashPartition::PartitionToFlashAddress`. -/
def toFlashAddress (p : FlashPartition) (address : Nat) : Nat :=
  address + p.startSectorIndex * p.sectorSize

/-- Underlying flash write to RAM-backed memory (`FlashMemory::Write` on the
fake flash, without injected errors). -/
def writeBytes (mem : Nat → Nat) (addr : Nat) (data : List Nat) : Nat → Nat :=
  fun a => if addr ≤ a ∧ a < addr + data.length then data.getD (a - addr) 0 else mem a

/-- `FlashPartition::Write` (flash_memory.cc lines 85–96): permission check,
then `CheckBounds`, then two `PW_CHECK_UINT_EQ` alignment assertions, then
the forwarded flash write.  Returns the result together with the state of
the partition after the call. -/
def write (p : FlashPartition) (address : Nat) (data : List Nat) :
    CallResult × FlashPartition :=
  if p.readOnly then (.status .permissionDenied, p)
  else if address + data.length > p.sizeBytes then (.status .outOfRange, p)
  else if address % p.alignmentBytes ≠ 0 then (.assertFailed, p)
  else if data.length % p.alignmentBytes ≠ 0 then (.assertFailed, p)
  else (.status .ok,
    { p with mem := writeBytes p.mem (p.toFlashAddress address) data })

/-- `FlashPartition::Erase` (flash_memory.cc lines 68–78): permission check,
then `CheckBounds`, then a `PW_CHECK_UINT_EQ` sector-alignment assertion,
then the forwarded flash erase. -/
def erase (p : FlashPartition) (address : Nat) (numSectors : Nat) :
    CallResult × FlashPartition :=
  if p.readOnly then (.status .permissionDenied, p)
  else if address + numSectors * p.sectorSize > p.sizeBytes then
    (.status .outOfRange, p)
  else if address % p.sectorSize ≠ 0 then (.assertFailed, p)
  else (.status .ok,
    { p with mem := fun a =>
        if p.toFlashAddress address ≤ a ∧
            a < p.toFlashAddress address + numSectors * p.sectorSize then
          p.erasedByte
        else p.mem a })

/-- `FlashPartition::Read`: bounds-checked read of `len` bytes, forwarded to
the flash at the translated address. -/
def read (p : FlashPartition) (address : Nat) (len : Nat) :
    Except Status (List Nat) :=
  if address + len > p.sizeBytes then .error .outOfRange
  else .ok ((List.range len).map fun i => p.mem (p.toFlashAddress address + i))

/-- The chunked scan loop inside `FlashPartition::IsRegionErased`
(flash_memory.cc lines 116–135): read up to `kMaxFlashAlignment` bytes at a
time; report not-erased as soon as a byte differs from the erased pattern. -/
def isErasedLoop (p : FlashPartition) (base : Nat) (offset : Nat)
    (length : Nat) : Except Status Bool :=
  if _h : length = 0 then .ok true
  else
    match p.read (base + offset) (min kMaxFlashAlignment length) with
    | .error s => .error s
    | .ok chunk =>
      if chunk.all (fun b => b = p.erasedByte) then
        isErasedLoop p base (offset + min kMaxFlashAlignment length)
          (length - min kMaxFlashAlignment length)
      else .ok false
termination_by length
decreasing_by
  have hpos : 0 < min kMaxFlashAlignment length := by
    simp [kMaxFlashAlignment]; omega
  omega

/-- `FlashPartition::IsRegionErased` (flash_memory.cc lines 98–137):
null-output check, alignment checks against `kMaxFlashAlignment`, then the
chunked scan.  `outPtrNull` models passing a null `is_erased` pointer. -/
def isRegionErased (p : FlashPartition) (address : Nat) (length : Nat)
    (outPtrNull : Bool) : Except Status Bool :=
  if outPtrNull then .error .invalidArgument
  else if p.alignmentBytes > kMaxFlashAlignment ∨
      kMaxFlashAlignment % p.alignmentBytes ≠ 0 ∨
      length % p.alignmentBytes ≠ 0 then .error .invalidArgument
  else isErasedLoop p address 0 length

/-- Whether every byte of the partition region `[address, address+length)`
holds the erased pattern. -/
def regionErased (p : FlashPartition) (address : Nat) (length : Nat) : Bool :=
  (List.range length).all fun i => p.mem (p.toFlashAddress address + i) = p.erasedByte

end FlashPartition

/-! ### Entry codec

Byte-level entry construction is translated from `MakeValidEntry`,
`SimpleChecksum`, `AltChecksum` and `NoChecksum` in
`key_value_store_binary_format_test.cc`; parsing/verification follows the
bit-exact layout of spec §6 and the verification rules of §4.2, as the
entry-codec implementation itself is not among the sources. -/

/-- Little-endian 16-bit encoding. -/
def le16 (n : Nat) : List Nat := [n % 256, n / 256 % 256]

/-- Little-endian 32-bit encoding. -/
def le32 (n : Nat) : List Nat :=
  [n % 256, n / 256 % 256, n / 2 ^ 16 % 256, n / 2 ^ 24 % 256]

/-- Little-endian 16-bit read at `off` (missing bytes read as 0). -/
def readLe16 (bytes : List Nat) (off : Nat) : Nat :=
  bytes.getD off 0 + 256 * bytes.getD (off + 1) 0

/-- Little-endian 32-bit read at `off` (missing bytes read as 0). -/
def readLe32 (bytes : List Nat) (off : Nat) : Nat :=
  bytes.getD off 0 + 256 * bytes.getD (off + 1) 0 +
    2 ^ 16 * bytes.getD (off + 2) 0 + 2 ^ 24 * bytes.getD (off + 3) 0

/-- `SimpleChecksum` from the binary-format test: 32-bit sum of bytes. -/
def simpleChecksum (data : List Nat) (state : Nat) : Nat :=
  data.foldl (fun s b => (s + b) % 2 ^ 32) state

/-- `AltChecksum` from the binary-format test:
`state = (state << 8) | (byte(state >> 24) ^ b)` over uint32. -/
def altChecksum (data : List Nat) (state : Nat) : Nat :=
  data.foldl (fun s b => (s * 256) % 2 ^ 32 ||| Nat.xor (s / 2 ^ 24 % 256) b) state

/-- `NoChecksum` from the binary-format test. -/
def noChecksum (_data : List Nat) (_state : Nat) : Nat := 0

/-- ASCII bytes of a string key/value. -/
def bytesOfString (s : String) : List Nat := s.data.map Char.toNat

/-- `sizeof(EntryHeader)`: the fixed 16-byte header. -/
def entryHeaderSize : Nat := 16

/-- `Padding(content, align)`: bytes needed to round `content` up to a
multiple of `align`. -/
def padLen (align content : Nat) : Nat := (align - content % align) % align

/-- The serialized entry with a given value of the 4-byte checksum field
(`AsBytes(...)` in `MakeValidEntry`); `align` is the entry alignment, 16 in
every use in the test. -/
def entryContents (magic ckField id : Nat) (key value : List Nat)
    (align : Nat) : List Nat :=
  le32 magic ++ le32 ckField ++ [align / 16 - 1, key.length] ++
    le16 value.length ++ le32 id ++ key ++ value ++
    List.replicate (padLen align (entryHeaderSize + key.length + value.length)) 0

/-- `MakeValidEntry`: serialize with a zero checksum field, compute the
checksum over the whole buffer, then patch it into bytes 4–7. -/
def makeValidEntry (ck : List Nat → Nat → Nat) (magic id : Nat)
    (key value : List Nat) : List Nat :=
  entryContents magic (ck (entryContents magic 0 id key value 16) 0) id key value 16

/-- An `EntryFormat`: magic plus optional checksum algorithm. -/
structure EntryFormat where
  magic : Nat
  checksum : Option (List Nat → Nat → Nat)

/-- A parsed and verified on-flash entry. -/
structure ParsedEntry where
  magic : Nat
  id : Nat
  key : List Nat
  value : List Nat
  size : Nat
  deriving DecidableEq, Repr

/-- Modelled from the spec: entry parsing and verification (§4.2 and the
bit-exact layout of §6); the entry codec implementation (entry.cc) is not
among the sources.  Reads the 16-byte header at `off` inside a sector,
requires the magic to match a configured format, `key_length ∈ [1,127]`,
the total aligned size to fit in the sector, and — when the format has a
checksum — the checksum computed with the checksum field zeroed to match
the stored one. -/
def parseEntry (formats : List EntryFormat) (sector : List Nat) (off : Nat) :
    Option ParsedEntry :=
  if off + entryHeaderSize > sector.length then none
  else
    let magic := readLe32 sector off
    match formats.find? (fun f => f.magic = magic) with
    | none => none
    | some fmt =>
      let ckStored := readLe32 sector (off + 4)
      let alignUnits := sector.getD (off + 8) 0
      let keyLen := sector.getD (off + 9) 0
      let valLen := readLe16 sector (off + 10)
      let id := readLe32 sector (off + 12)
      let align := (alignUnits + 1) * 16
      let content := entryHeaderSize + keyLen + valLen
      let size := content + padLen align content
      if keyLen = 0 ∨ 127 < keyLen then none
      else if sector.length < off + size then none
      else
        let key := ((sector.drop (off + entryHeaderSize)).take keyLen)
        let value := ((sector.drop (off + entryHeaderSize + keyLen)).take valLen)
        let body := (sector.drop off).take size
        let zeroed := body.take 4 ++ le32 0 ++ body.drop 8
        match fmt.checksum with
        | none => some ⟨magic, id, key, value, size⟩
        | some ck =>
          if ck zeroed 0 = ckStored then some ⟨magic, id, key, value, size⟩
          else none

/-- The magic and entries used throughout the binary-format test. -/
def kMagic : Nat := 0xc001beef

def kAltMagic : Nat := 0x0badd00d

def kNoChecksumMagic : Nat := 0x6000061e

def kEntry1 : List Nat :=
  makeValidEntry simpleChecksum kMagic 1 (bytesOfString "key1") (bytesOfString "value1")

def kEntry2 : List Nat :=
  makeValidEntry simpleChecksum kMagic 3 (bytesOfString "k2") (bytesOfString "value2")

def kEntry3 : List Nat :=
  makeValidEntry simpleChecksum kMagic 4 (bytesOfString "k3y") (bytesOfString "value3")

def kEntry4 : List Nat :=
  makeValidEntry simpleChecksum kMagic 5 (bytesOfString "4k") (bytesOfString "value4")

def kAltEntry : List Nat :=
  makeValidEntry altChecksum kAltMagic 32 (bytesOfString "A Key") (bytesOfString "XD")

def kNoChecksumEntry : List Nat :=
  makeValidEntry noChecksum kNoChecksumMagic 64 (bytesOfString "kee") (bytesOfString "O_o")

/-- The single-format configuration used by the `KvsErrorHandling` and
`KvsErrorRecovery` fixtures. -/
def singleFormat : List EntryFormat := [⟨kMagic, some simpleChecksum⟩]

/-- The three-format configuration of the `InitializedMultiMagicKvs`
fixture. -/
def multiFormats : List EntryFormat :=
  [⟨kMagic, some simpleChecksum⟩, ⟨kAltMagic, some altChecksum⟩,
    ⟨kNoChecksumMagic, none⟩]

/-- Every byte of the flash range `[addr, addr+len)` holds the erased pattern. -/
def MemErased (p : FlashPartition) (addr : Nat) (len : Nat) : Prop :=
  ∀ i < len, p.mem (addr + i) = p.erasedByte

instance (p : FlashPartition) (addr len : Nat) : Decidable (MemErased p addr len) :=
  Nat.decidableBallLT len fun i _ => p.mem (addr + i) = p.erasedByte

/-- A writable 4×512-byte partition with 16-byte alignment, used for the
concrete C7 inputs. -/
def wp7 : FlashPartition :=
  { mem := fun _ => 0xFF
    startSectorIndex := 0
    sectorCount := 4
    sectorSize := 512
    alignmentBytes := 16
    readOnly := false
    erasedByte := 0xFF }

/-- A read-only partition used as the concrete C10 witness. -/
def rop10 : FlashPartition :=
  { mem := fun _ => 0xFF
    startSectorIndex := 0
    sectorCount := 4
    sectorSize := 512
    alignmentBytes := 16
    readOnly := true
    erasedByte := 0xFF }

/-- A partition with one non-erased byte at flash address 21, for the C8
witness. -/
def wp8 : FlashPartition :=
  { mem := fun a => if a = 21 then 0 else 0xFF
    startSectorIndex := 0
    sectorCount := 4
    sectorSize := 512
    alignmentBytes := 16
    readOnly := false
    erasedByte := 0xFF }

/-! ### KVS engine model

The engine implementation (key_value_store.cc) is not among the sources;
everything below is modelled from the specification (§4.3–§4.6), with the
repository's binary-format tests pinning the behaviour. -/

/-- The scan step: the minimum legal entry alignment (§9: step in units of
the partition alignment when searching for a magic); 16 bytes in the
binary-format tests. -/
def kScanStep : Nat := 16

/-- The erased-byte pattern of the fake flash used by the tests. -/
def kErasedByte : Nat := 0xFF

/-- Result of scanning one sector: the verified entries (offset paired with
the parsed entry, in address order), and whether the scan found
corruption. -/
structure ScanResult where
  entries : List (Nat × ParsedEntry)
  corrupt : Bool
  deriving DecidableEq, Repr

/-- Modelled from the spec: the init-time walk of one sector (§4.4, §9).
Starting at offset 0, a recognized and verified entry is recorded and the
walk skips its aligned size (verified entries always have `size ≥ 17`, so
the `max` with the scan step never truncates a skip); anything else that is
not erased-pattern bytes marks the sector corrupt, and the walk continues
at the next alignment step looking for the next magic.  `fuel` bounds the
recursion; the wrapper passes enough for any walk. -/
def scanFrom (formats : List EntryFormat) (sector : List Nat) :
    Nat → Nat → List (Nat × ParsedEntry) → Bool → ScanResult
  | 0, _, acc, corrupt => ⟨acc, corrupt⟩
  | fuel + 1, off, acc, corrupt =>
    if sector.length ≤ off then ⟨acc, corrupt⟩
    else
      match parseEntry formats sector off with
      | some e =>
        scanFrom formats sector fuel (off + max kScanStep e.size)
          (acc ++ [(off, e)]) corrupt
      | none =>
        if ((sector.drop off).take kScanStep).all (fun b => b = kErasedByte) then
          scanFrom formats sector fuel (off + kScanStep) acc corrupt
        else
          scanFrom formats sector fuel (off + kScanStep) acc true

/-- Scan one whole sector. -/
def scanSector (formats : List EntryFormat) (sector : List Nat) : ScanResult :=
  scanFrom formats sector sector.length 0 [] false

/-- In-RAM key descriptor: the live key, its latest transaction id and
value, and how many redundant copies of the latest entry have been seen. -/
structure KeyDesc where
  key : List Nat
  id : Nat
  value : List Nat
  copies : Nat
  deriving DecidableEq, Repr

/-- Index-construction state: the descriptor table plus the sectors marked
corrupt because of duplicate-transaction-id conflicts. -/
structure IndexState where
  descs : List KeyDesc
  dupCorrupt : List Nat
  deriving DecidableEq, Repr

/-- Modelled from the spec: inserting one scanned entry into the index
(§4.4).  A higher transaction id supersedes the descriptor; a lower one is
stale.  An equal id with an identical payload is accepted as a redundant
copy while the descriptor has fewer than `redundancy` copies — any further
duplicate, or an equal id with a different value, marks the entry's sector
corrupt (pinned by the Init_DuplicateEntries tests, where a second
identical copy under redundancy 1 is treated as corruption).  Key hashing
is modelled as exact key comparison. -/
def insertScanned (redundancy : Nat) (st : IndexState) (sec : Nat)
    (e : ParsedEntry) : IndexState :=
  match st.descs.find? (fun d => d.key = e.key) with
  | none => { st with descs := st.descs ++ [⟨e.key, e.id, e.value, 1⟩] }
  | some d =>
    if d.id < e.id then
      { st with descs := st.descs.map fun d' =>
          if d'.key = e.key then ⟨e.key, e.id, e.value, 1⟩ else d' }
    else if e.id < d.id then st
    else
      if d.value = e.value ∧ d.copies < redundancy then
        { st with descs := st.descs.map fun d' =>
            if d'.key = e.key then { d' with copies := d'.copies + 1 } else d' }
      else
        { st with dupCorrupt := st.dupCorrupt ++ [sec] }

/-- All scanned entries of an image, tagged with their sector index, in
scan order. -/
def sectorEntries (scans : List ScanResult) : List (Nat × ParsedEntry) :=
  (scans.enum.map fun p => p.2.entries.map fun oe => (p.1, oe.2)).flatten

/-- Fold a list of tagged entries into the index, starting from empty. -/
def indexFold (redundancy : Nat) (l : List (Nat × ParsedEntry)) : IndexState :=
  l.foldl (fun st pe => insertScanned redundancy st pe.1 pe.2) ⟨[], []⟩

/-- Build the in-RAM index from the scan of every sector. -/
def buildIndex (redundancy : Nat) (scans : List ScanResult) : IndexState :=
  indexFold redundancy (sectorEntries scans)

/-- Whether a scanned entry is (a copy of) the live version of its key. -/
def isLive (st : IndexState) (e : ParsedEntry) : Bool :=
  match st.descs.find? (fun d => d.key = e.key) with
  | some d => d.id = e.id && d.value = e.value
  | none => false

/-- Bytes of live entries inside one scanned sector. -/
def liveBytes (st : IndexState) (sr : ScanResult) : Nat :=
  ((sr.entries.filter fun oe => isLive st oe.2).map fun oe => oe.2.size).sum

/-- Bytes of stale (superseded) entries inside one scanned sector. -/
def staleBytes (st : IndexState) (sr : ScanResult) : Nat :=
  ((sr.entries.filter fun oe => ! isLive st oe.2).map fun oe => oe.2.size).sum

/-- Whether sector `i` ended up corrupt: either its scan saw corruption or
index construction found a duplicate-id conflict in it. -/
def sectorCorrupt (st : IndexState) (i : Nat) (sr : ScanResult) : Bool :=
  sr.corrupt || st.dupCorrupt.contains i

/-- Reclaimable bytes of sector `i`: everything but the live entries when
the sector is corrupt, otherwise its stale entries. -/
def reclaimableOfSector (sectorSize : Nat) (st : IndexState) (i : Nat)
    (sr : ScanResult) : Nat :=
  if sectorCorrupt st i sr then sectorSize - liveBytes st sr
  else staleBytes st sr

/-- The construction-time recovery policy (§4.6). -/
inductive RecoveryPolicy where
  | manual
  | lazy
  deriving DecidableEq, Repr

/-- Outcome of Init: status, descriptor table and the storage counters the
claims mention. -/
structure InitResult where
  status : Status
  descs : List KeyDesc
  inUse : Nat
  reclaimable : Nat
  corruptSectorsRecovered : Nat
  deriving DecidableEq, Repr

/-- Number of corrupt sectors after scanning and index construction. -/
def corruptCount (st : IndexState) (scans : List ScanResult) : Nat :=
  (scans.enum.filter fun p => sectorCorrupt st p.1 p.2).length

/-- Sum of reclaimable bytes over all sectors. -/
def reclaimableAll (sectorSize : Nat) (st : IndexState)
    (scans : List ScanResult) : Nat :=
  (scans.enum.map fun p => reclaimableOfSector sectorSize st p.1 p.2).sum

/-- Sum of reclaimable bytes over the non-corrupt sectors only. -/
def reclaimableIntact (sectorSize : Nat) (st : IndexState)
    (scans : List ScanResult) : Nat :=
  ((scans.enum.filter fun p => ! sectorCorrupt st p.1 p.2).map fun p =>
    reclaimableOfSector sectorSize st p.1 p.2).sum

/-- Modelled from the spec: Init (§4.3, §4.4, §4.6).  Scans every sector,
builds the index and the accounting, then applies the recovery policy:
Manual reports DataLoss on any corruption and performs no compaction; Lazy
garbage-collects every corrupt sector during Init (live entries are kept,
the corrupt sector's reclaimable bytes are recovered and counted in
`corrupt_sectors_recovered`) and reports Ok. -/
def initKvs (formats : List EntryFormat) (redundancy sectorSize : Nat)
    (policy : RecoveryPolicy) (image : List (List Nat)) : InitResult :=
  let scans := image.map (scanSector formats)
  let st := buildIndex redundancy scans
  let inUse := (scans.map fun sr => liveBytes st sr).sum
  match policy with
  | .manual =>
    ⟨if corruptCount st scans = 0 then .ok else .dataLoss, st.descs, inUse,
      reclaimableAll sectorSize st scans, 0⟩
  | .lazy =>
    ⟨.ok, st.descs, inUse, reclaimableIntact sectorSize st scans,
      corruptCount st scans⟩

/-- `Get` after Init: look the key up in the descriptor table. -/
def kvsGet (r : InitResult) (key : List Nat) : Except Status (List Nat) :=
  match r.descs.find? (fun d => d.key = key) with
  | some d => .ok d.value
  | none => .error .notFound

/-- `size()` after Init: number of live keys. -/
def kvsSize (r : InitResult) : Nat := r.descs.length

/-- The entries for key `k` that were durably on flash and passed
verification during the scan of `image`. -/
def verifiedEntriesFor (formats : List EntryFormat) (image : List (List Nat))
    (k : List Nat) : List ParsedEntry :=
  ((sectorEntries (image.map (scanSector formats))).map Prod.snd).filter
    fun e => e.key = k

/-- Modelled from the spec's write path (§4.5 step 1) as pinned by the
PutNewEntry_UsesFirstFormat and PutExistingEntry_UsesFirstFormat tests: Put
serializes every new entry — for new and existing keys alike — with the
FIRST configured format, under a transaction id one greater than the last
transaction id the store has seen (a store-global counter: both tests
expect id 65 after the highest pre-seeded id 64). -/
def putEntryBytes (formats : List EntryFormat) (lastId : Nat)
    (key value : List Nat) : List Nat :=
  match formats with
  | [] => []
  | f :: _ =>
    makeValidEntry (f.checksum.getD noChecksum) f.magic (lastId + 1) key value

/-- The Put serialization as claim C3 words it: the EntryFormat of the
existing key's latest entry and `prev_id + 1` for an update; the first
configured format and id 1 for a new key. -/
def putEntryBytesClaimed (formats : List EntryFormat)
    (existing : Option (EntryFormat × Nat)) (key value : List Nat) : List Nat :=
  match existing with
  | some fp =>
    makeValidEntry (fp.1.checksum.getD noChecksum) fp.1.magic (fp.2 + 1) key value
  | none =>
    match formats with
    | [] => []
    | f :: _ => makeValidEntry (f.checksum.getD noChecksum) f.magic 1 key value

/-! ### Put model with flash-write failures -/

/-- Per-sector write bookkeeping for the Put model: bytes already consumed
at the head of the sector, and whether a failed write has condemned the
sector (its remaining space is unusable until garbage collection). -/
structure PutSector where
  used : Nat
  dead : Bool
  deriving DecidableEq, Repr

/-- State of the Put model: geometry, per-sector bookkeeping, the committed
index (key ↦ transaction id), the last transaction id handed out, and the
`error_detected` flag. -/
structure PutKvs where
  sectorSize : Nat
  sectors : List PutSector
  index : List (List Nat × Nat)
  lastId : Nat
  errorDetected : Bool
  deriving DecidableEq, Repr

/-- Free tail bytes of a sector; none once condemned. -/
def freeTail (sectorSize : Nat) (s : PutSector) : Nat :=
  if s.dead then 0 else sectorSize - s.used

/-- Position of the first maximum of a list, with its value (ties go to the
lower index). -/
def argmaxFirst (l : List Nat) : Option (Nat × Nat) :=
  l.enum.foldl
    (fun acc q =>
      match acc with
      | none => some q
      | some r => if r.2 < q.2 then some q else some r)
    none

/-- Modelled from the spec (§4.5 step 2 and its tie-breaking): the write
destination is the sector with the most free tail, ties broken toward the
lower index; the allocation fails when even that sector cannot hold the
entry. -/
def selectSector (k : PutKvs) (size : Nat) : Option Nat :=
  match argmaxFirst (k.sectors.map (freeTail k.sectorSize)) with
  | none => none
  | some r => if size ≤ r.2 then some r.1 else none

/-- The partition offset at which a Put into sector `i` of state `k` would
place the entry. -/
def putOffset (k : PutKvs) (i : Nat) : Nat :=
  i * k.sectorSize + (k.sectors.getD i ⟨0, false⟩).used

/-- Modelled from the spec: one Put of an entry of `size` bytes for `key`
(§4.5 step 4 and §7 Propagation).  On success the entry is appended at the
selected sector's write head and the key committed under a fresh
transaction id.  When the underlying flash write fails with `e`, the bytes
consumed by the failed write are marked used and the sector is condemned
for later recovery, `error_detected` is set, and `e` is returned unchanged
with the index and transaction id untouched. -/
def kvsPut (k : PutKvs) (key : List Nat) (size : Nat)
    (injected : Option Status) : Status × PutKvs :=
  match selectSector k size with
  | none => (.resourceExhausted, k)
  | some i =>
    match injected with
    | some e =>
      (e,
        { k with
          sectors := k.sectors.enum.map fun q =>
            if q.1 = i then ⟨q.2.used + size, true⟩ else q.2
          errorDetected := true })
    | none =>
      (.ok,
        { k with
          sectors := k.sectors.enum.map fun q =>
            if q.1 = i then ⟨q.2.used + size, q.2.dead⟩ else q.2
          index := (k.index.filter fun q => ¬ q.1 = key) ++ [(key, k.lastId + 1)]
          lastId := k.lastId + 1 })

/-- The status Get would report against the Put model's index. -/
def putKvsGetStatus (k : PutKvs) (key : List Nat) : Status :=
  match k.index.find? (fun q => q.1 = key) with
  | some _ => .ok
  | none => .notFound

/-! ### Redundant Get model -/

/-- One attempt to read a redundant copy (§4.3 Get): parse and verify the
entry at the copy's sector and offset, and check it carries the wanted
key. -/
def readCopy (formats : List EntryFormat) (image : List (List Nat))
    (key : List Nat) (c : Nat × Nat) : Option (List Nat) :=
  match parseEntry formats (image.getD c.1 []) c.2 with
  | some e => if e.key = key then some e.value else none
  | none => none

/-- Modelled from the spec: Get over redundant copies (§4.3): try the
copies in order and serve the first one that reads back and verifies; when
every copy fails, the result is DataLoss. -/
def getRedundant (formats : List EntryFormat) (image : List (List Nat))
    (key : List Nat) (copies : List (Nat × Nat)) : Except Status (List Nat) :=
  match copies.findSome? (readCopy formats image key) with
  | some v => .ok v
  | none => .error .dataLoss

/-- Erase the listed sectors of an image to the erased pattern. -/
def eraseImageSectors (image : List (List Nat)) (toErase : List Nat) :
    List (List Nat) :=
  image.enum.map fun q =>
    if q.1 ∈ toErase then List.replicate q.2.length kErasedByte else q.2

/-- The magic word read from fully erased flash. -/
def kErasedMagic : Nat := 0xffffffff

/-! ### Maintenance model (FullMaintenance) -/

/-- Sector bookkeeping for the maintenance model: live bytes, reclaimable
bytes, and whether the sector is corrupt. -/
structure MSector where
  live : Nat
  reclaimable : Nat
  corrupt : Bool
  deriving DecidableEq, Repr

/-- Counter-level engine state for `FullMaintenance`: geometry, per-sector
accounting, the per-key count of redundant copies present, the cumulative
recovery counters and the `error_detected` flag. -/
structure MState where
  sectorCount : Nat
  sectorSize : Nat
  redundancy : Nat
  sectors : List MSector
  keyCopies : List Nat
  corruptRecovered : Nat
  missingRecovered : Nat
  errorDetected : Bool
  deriving DecidableEq, Repr

/-- The `GetStorageStats` counters of the maintenance model. -/
structure MStats where
  inUse : Nat
  reclaimable : Nat
  writable : Nat
  corruptSectorsRecovered : Nat
  missingRedundantEntriesRecovered : Nat
  deriving DecidableEq, Repr

/-- `GetStorageStats` over the maintenance model: one sector's space is
reserved and never writable. -/
def mStats (s : MState) : MStats :=
  { inUse := (s.sectors.map fun sec => sec.live).sum
    reclaimable := (s.sectors.map fun sec => sec.reclaimable).sum
    writable := (s.sectorCount - 1) * s.sectorSize
      - (s.sectors.map fun sec => sec.live).sum
      - (s.sectors.map fun sec => sec.reclaimable).sum
    corruptSectorsRecovered := s.corruptRecovered
    missingRedundantEntriesRecovered := s.missingRecovered }

/-- Modelled from the spec: `FullMaintenance()` (§4.3, §4.6, §5): compact
every sector holding reclaimable bytes (recovering the corrupt ones, which
is counted in `corrupt_sectors_recovered`), rewrite the missing redundant
copies of every under-replicated key (counted in
`missing_redundant_entries_recovered`), clear `error_detected`, and return
Ok.  Live bytes are preserved by compaction. -/
def fullMaintenance (s : MState) : Status × MState :=
  (.ok,
    { s with
      sectors := s.sectors.map fun sec => ⟨sec.live, 0, false⟩
      keyCopies := s.keyCopies.map fun _ => s.redundancy
      corruptRecovered := s.corruptRecovered
        + (s.sectors.filter fun sec => sec.corrupt).length
      missingRecovered := s.missingRecovered
        + (s.keyCopies.map fun c => s.redundancy - c).sum
      errorDetected := false })

/-! ### Concrete images from the binary-format tests -/

/-- Pad a sector's contents with erased bytes up to `n` bytes. -/
def padErased (l : List Nat) (n : Nat) : List Nat :=
  l ++ List.replicate (n - l.length) kErasedByte

/-- A fully erased 512-byte sector. -/
def erasedSector : List Nat := List.replicate 512 kErasedByte

/-- Version 7 of "my_key" (Init_CorruptKey_RevertsToPreviousVersion). -/
def kVersion7 : List Nat :=
  makeValidEntry simpleChecksum kMagic 7 (bytesOfString "my_key")
    (bytesOfString "version 7")

/-- Version 8 of "my_key" (Init_CorruptKey_RevertsToPreviousVersion). -/
def kVersion8 : List Nat :=
  makeValidEntry simpleChecksum kMagic 8 (bytesOfString "my_key")
    (bytesOfString "version 8")

/-- The flash image of Init_CorruptKey_RevertsToPreviousVersion: versions 7
and 8 of "my_key", with byte 34 (inside version 8) overwritten by 0xef. -/
def imgV78 : List (List Nat) :=
  [(padErased (kVersion7 ++ kVersion8) 512).set 34 0xef,
    erasedSector, erasedSector, erasedSector]

/-- The empty freshly-initialized 4×512-byte Put state of the
Put_WriteFailure tests. -/
def emptyPutKvs : PutKvs :=
  { sectorSize := 512
    sectors := [⟨0, false⟩, ⟨0, false⟩, ⟨0, false⟩, ⟨0, false⟩]
    index := []
    lastId := 0
    errorDetected := false }

/-- The flash image for the C5 witness: the `kEntry1` record present in two
distinct sectors (its two redundant copies), two sectors erased. -/
def imgRed : List (List Nat) :=
  [padErased kEntry1 512, padErased kEntry1 512, erasedSector, erasedSector]

/-- The flash image of the Init_DuplicateEntries tests: two identical
copies of `kEntry1`. -/
def imgDup : List (List Nat) :=
  [padErased (kEntry1 ++ kEntry1) 512, erasedSector, erasedSector, erasedSector]

/-- A flash image with a corrupt entry in sector 0 (version 8 of "my_key"
with byte 34 overwritten) and, in the intact sector 1, a superseded version
of "key1" (id 1, "value1") followed by its live version (id 2, "value2"):
the stale 32-byte old version stays reclaimable in an intact sector. -/
def imgStale : List (List Nat) :=
  [(padErased (kVersion7 ++ kVersion8) 512).set 34 0xef,
    padErased (kEntry1 ++ makeValidEntry simpleChecksum kMagic 2
      (bytesOfString "key1") (bytesOfString "value2")) 512,
    erasedSector, erasedSector]

lemma memErased_add (p : FlashPartition) (a m n : Nat) :
    MemErased p a (m + n) ↔ (MemErased p a m ∧ MemErased p (a + m) n) := by
  constructor
  · intro h
    refine ⟨fun i hi => h i (by omega), fun i hi => ?_⟩
    have := h (m + i) (by omega)
    rwa [← Nat.add_assoc] at this
  · rintro ⟨h1, h2⟩ i hi
    rcases lt_or_ge i m with hlt | hge
    · exact h1 i hlt
    · have := h2 (i - m) (by omega)
      have heq : a + m + (i - m) = a + i := by omega
      rwa [heq] at this

lemma memErased_mono (p : FlashPartition) (a : Nat) {m n : Nat} (h : m ≤ n)
    (he : MemErased p a n) : MemErased p a m :=
  fun i hi => he i (by omega)

lemma regionErased_eq_decide (p : FlashPartition) (address length : Nat) :
    p.regionErased address length =
      decide (MemErased p (p.toFlashAddress address) length) := by
  rw [Bool.eq_iff_iff]
  simp only [FlashPartition.regionErased, List.all_eq_true, List.mem_range,
    decide_eq_true_eq, MemErased]

lemma chunk_all_eq_decide (p : FlashPartition) (addr rs : Nat) :
    (((List.range rs).map fun i => p.mem (addr + i)).all
        fun b => b = p.erasedByte) = decide (MemErased p addr rs) := by
  rw [Bool.eq_iff_iff]
  simp only [List.all_eq_true, List.mem_map, List.mem_range, decide_eq_true_eq,
    MemErased]
  constructor
  · intro h i hi
    exact h (p.mem (addr + i)) ⟨i, hi, rfl⟩
  · rintro h b ⟨i, hi, rfl⟩
    exact h i hi

/-- The scan loop reports exactly whether the whole remaining region holds
the erased pattern, provided the region is in bounds (so every chunked read
succeeds). -/
lemma isErasedLoop_ok (p : FlashPartition) (base : Nat) :
    ∀ length offset, base + offset + length ≤ p.sizeBytes →
    p.isErasedLoop base offset length =
      .ok (decide (MemErased p (p.toFlashAddress (base + offset)) length)) := by
  intro length
  induction length using Nat.strong_induction_on with
  | _ length ih =>
    intro offset hb
    rw [FlashPartition.isErasedLoop]
    by_cases h0 : length = 0
    · subst h0
      simp [MemErased]
    · simp only [h0, dite_false]
      have hrs_pos : 0 < min kMaxFlashAlignment length := by
        simp [kMaxFlashAlignment]; omega
      have hrs_le : min kMaxFlashAlignment length ≤ length := Nat.min_le_right _ _
      set rs := min kMaxFlashAlignment length with hrs
      have hread : p.read (base + offset) rs =
          .ok ((List.range rs).map fun i =>
            p.mem (p.toFlashAddress (base + offset) + i)) := by
        rw [FlashPartition.read, if_neg (by omega)]
      rw [hread]
      dsimp only
      rw [chunk_all_eq_decide]
      by_cases hch : MemErased p (p.toFlashAddress (base + offset)) rs
      · rw [decide_eq_true hch, if_pos rfl]
        rw [ih (length - rs) (by omega) (offset + rs) (by omega)]
        have hsplit := memErased_add p (p.toFlashAddress (base + offset)) rs (length - rs)
        rw [Nat.add_sub_cancel' hrs_le] at hsplit
        have haddr : p.toFlashAddress (base + (offset + rs)) =
            p.toFlashAddress (base + offset) + rs := by
          simp [FlashPartition.toFlashAddress]; omega
        rw [haddr]
        congr 1
        rw [decide_eq_decide, hsplit]
        simp [hch]
      · rw [decide_eq_false hch, if_neg (by simp)]
        have hnot : ¬ MemErased p (p.toFlashAddress (base + offset)) length := by
          intro hall
          exact hch (memErased_mono p _ hrs_le hall)
        rw [decide_eq_false hnot]

/-- C8: for an in-bounds, alignment-multiple region, `IsRegionErased`
returns Ok with output true exactly when every byte of the region equals the
erased byte; a misaligned length or a null output pointer yields
InvalidArgument. -/
theorem claimC8 (p : FlashPartition) (address length : Nat)
    (hal : p.alignmentBytes ≤ kMaxFlashAlignment)
    (hdvd : kMaxFlashAlignment % p.alignmentBytes = 0)
    (hb : address + length ≤ p.sizeBytes)
    (hlen : length % p.alignmentBytes = 0) :
    p.isRegionErased address length false = .ok (p.regionErased address length)
    ∧ (∀ l, l % p.alignmentBytes ≠ 0 →
        p.isRegionErased address l false = .error .invalidArgument)
    ∧ (∀ a l, p.isRegionErased a l true = .error .invalidArgument) := by
  refine ⟨?_, ?_, ?_⟩
  · rw [FlashPartition.isRegionErased]
    rw [if_neg (by simp), if_neg (by push_neg; exact ⟨by omega, hdvd, hlen⟩)]
    have := isErasedLoop_ok p address length 0 (by omega)
    rw [this, regionErased_eq_decide]
    norm_num
  · intro l hl
    rw [FlashPartition.isRegionErased]
    rw [if_neg (by simp), if_pos (by right; right; exact hl)]
  · intro a l
    rw [FlashPartition.isRegionErased, if_pos rfl]

/-- C7 (as stated) is false: a misaligned Write on a writable partition hits
a fatal `PW_CHECK` assertion; it does not return InvalidArgument.  Concrete
input: partition `wp7`, written at the in-bounds misaligned address 8. -/
theorem claimC7_counterexample :
    (wp7.write 8 (List.replicate 16 0)).fst ≠ CallResult.status .invalidArgument
    ∧ wp7.write 8 (List.replicate 16 0) = (.assertFailed, wp7) :=
  ⟨by decide, rfl⟩

/-- C7 (amended): on a writable partition, an in-bounds Write whose address
or length is not a multiple of the partition alignment fails the
`PW_CHECK_UINT_EQ` alignment assertion (a fatal abort, not an
InvalidArgument status) and leaves the underlying flash untouched. -/
theorem claimC7 (p : FlashPartition) (address : Nat) (data : List Nat)
    (hro : p.readOnly = false)
    (hb : address + data.length ≤ p.sizeBytes)
    (hmis : address % p.alignmentBytes ≠ 0 ∨ data.length % p.alignmentBytes ≠ 0) :
    p.write address data = (.assertFailed, p) := by
  rw [FlashPartition.write]
  rw [if_neg (by simp [hro]), if_neg (by omega)]
  rcases hmis with h | h
  · rw [if_pos h]
  · by_cases ha : address % p.alignmentBytes ≠ 0
    · rw [if_pos ha]
    · rw [if_neg ha, if_pos h]

theorem claimC7_witness :
    (wp7.readOnly = false ∧ 8 + (List.replicate 16 (0 : Nat)).length ≤ wp7.sizeBytes
      ∧ (8 % wp7.alignmentBytes ≠ 0 ∨ (List.replicate 16 (0 : Nat)).length % wp7.alignmentBytes ≠ 0))
    ∧ wp7.write 8 (List.replicate 16 0) = (.assertFailed, wp7) :=
  ⟨⟨rfl, by decide, Or.inl (by decide)⟩,
    claimC7 wp7 8 (List.replicate 16 0) rfl (by decide) (Or.inl (by decide))⟩

/-- C10: on a read-only partition the permission check precedes the bounds
and alignment checks in both Write and Erase, so every call — including
out-of-range and misaligned ones — returns PermissionDenied and leaves the
flash untouched. -/
theorem claimC10 (p : FlashPartition) (h : p.readOnly = true)
    (address numSectors : Nat) (data : List Nat) :
    p.write address data = (.status .permissionDenied, p)
    ∧ p.erase address numSectors = (.status .permissionDenied, p) := by
  constructor
  · rw [FlashPartition.write, if_pos (by simp [h])]
  · rw [FlashPartition.erase, if_pos (by simp [h])]

theorem claimC10_witness :
    rop10.readOnly = true
    ∧ rop10.write 999999 [1, 2, 3] = (.status .permissionDenied, rop10)
    ∧ rop10.erase 7 99 = (.status .permissionDenied, rop10) :=
  ⟨rfl, (claimC10 rop10 rfl 999999 99 [1, 2, 3]).1,
    (claimC10 rop10 rfl 7 99 [1, 2, 3]).2⟩

theorem claimC8_witness :
    (wp8.alignmentBytes ≤ kMaxFlashAlignment
      ∧ kMaxFlashAlignment % wp8.alignmentBytes = 0
      ∧ 0 + 32 ≤ wp8.sizeBytes ∧ 32 % wp8.alignmentBytes = 0)
    ∧ wp8.isRegionErased 0 32 false = .ok (wp8.regionErased 0 32)
    ∧ wp8.regionErased 0 32 = false
    ∧ wp8.regionErased 32 32 = true :=
  ⟨⟨by decide, by decide, by decide, by decide⟩,
    (claimC8 wp8 0 32 (by decide) (by decide) (by decide) (by decide)).1,
    by decide, by decide⟩

/-! ### C1: Get returns the latest verified version -/

lemma find?_eq_head_filter {α : Type} (p : α → Bool) :
    ∀ l : List α, l.find? p = (l.filter p).head? := by
  intro l
  induction l with
  | nil => rfl
  | cons a l ih =>
    rw [List.find?_cons, List.filter_cons]
    cases h : p a
    · exact ih
    · rfl

/-- A key-preserving map commutes with filtering by key. -/
lemma filter_map_keyPreserving (f : KeyDesc → KeyDesc) (k : List Nat)
    (hkey : ∀ d, (f d).key = d.key) :
    ∀ l : List KeyDesc,
      (l.map f).filter (fun d => d.key = k)
        = (l.filter (fun d => d.key = k)).map f := by
  intro l
  induction l with
  | nil => rfl
  | cons d l ih =>
    rw [List.map_cons, List.filter_cons, List.filter_cons, hkey d]
    by_cases hb : decide (d.key = k) = true
    · rw [if_pos hb, if_pos hb, List.map_cons, ih]
    · rw [if_neg hb, if_neg hb, ih]

/-- Inserting an entry for a different key never changes the descriptors
filtered to key `k`. -/
lemma insertScanned_filter_ne (R : Nat) (st : IndexState) (s : Nat)
    (e : ParsedEntry) (k : List Nat) (hne : e.key ≠ k) :
    (insertScanned R st s e).descs.filter (fun d => d.key = k)
      = st.descs.filter (fun d => d.key = k) := by
  have hmapcase : ∀ g : KeyDesc → KeyDesc, (∀ d, (g d).key = d.key) →
      (∀ d, d.key ≠ e.key → g d = d) →
      (st.descs.map g).filter (fun d => d.key = k)
        = st.descs.filter (fun d => d.key = k) := by
    intro g hkey hfix
    rw [filter_map_keyPreserving g k hkey]
    have : ∀ d ∈ st.descs.filter (fun d => d.key = k), g d = d := by
      intro d hd
      have hk : d.key = k := by simpa using (List.mem_filter.mp hd).2
      exact hfix d (by rw [hk]; exact fun hkk => hne hkk.symm)
    rw [List.map_congr_left this]
    simp
  unfold insertScanned
  cases hfd : st.descs.find? (fun d => d.key = e.key) with
  | none =>
    simp only []
    rw [List.filter_append]
    simp [hne]
  | some d =>
    simp only []
    split_ifs with h1 h2 h3
    · exact hmapcase _ (by intro d'; by_cases hd : d'.key = e.key <;> simp [hd])
        (by intro d' hd; simp [hd])
    · rfl
    · exact hmapcase _ (by intro d'; by_cases hd : d'.key = e.key <;> simp [hd])
        (by intro d' hd; simp [hd])
    · rfl

/-- The index-construction invariant for a fixed key `k`: after folding a
list of scanned entries whose transaction ids for `k` are distinct, the
descriptor table holds exactly one descriptor for `k` (none when no entry
for `k` was seen) carrying the id and value of the maximum-id entry. -/
lemma indexFold_filter_spec (R : Nat) (k : List Nat) :
    ∀ l : List (Nat × ParsedEntry),
      ((((l.map Prod.snd).filter fun e => e.key = k).map fun e => e.id).Nodup) →
      ((((l.map Prod.snd).filter fun e => e.key = k) = [] →
          (indexFold R l).descs.filter (fun d => d.key = k) = [])
        ∧ (((l.map Prod.snd).filter fun e => e.key = k) ≠ [] →
          ∃ e c, e ∈ ((l.map Prod.snd).filter fun e => e.key = k)
            ∧ (∀ e' ∈ ((l.map Prod.snd).filter fun e => e.key = k), e'.id ≤ e.id)
            ∧ (indexFold R l).descs.filter (fun d => d.key = k)
                = [⟨k, e.id, e.value, c⟩])) := by
  intro l
  induction l using List.reverseRecOn with
  | nil =>
    intro _
    exact ⟨fun _ => rfl, fun h => absurd rfl h⟩
  | append_singleton l x ih =>
    intro hnodup
    have hfold : indexFold R (l ++ [x])
        = insertScanned R (indexFold R l) x.1 x.2 := by
      simp [indexFold, List.foldl_append]
    by_cases hk : x.2.key = k
    · -- the appended entry is for key k
      have hx : ((l ++ [x]).map Prod.snd).filter (fun e => e.key = k)
          = ((l.map Prod.snd).filter fun e => e.key = k) ++ [x.2] := by
        simp [List.filter_append, hk]
      rw [hx] at hnodup ⊢
      rw [List.map_append] at hnodup
      obtain ⟨hn1, hn2, hdisj⟩ := List.nodup_append.mp hnodup
      refine ⟨fun h => absurd h (by simp), fun _ => ?_⟩
      by_cases hes : ((l.map Prod.snd).filter fun e => e.key = k) = []
      · -- first entry for k
        have hfe : (indexFold R l).descs.filter (fun d => d.key = k) = [] :=
          (ih (by rw [hes]; simp)).1 hes
        have hfind : (indexFold R l).descs.find? (fun d => d.key = x.2.key)
            = none := by
          rw [hk, find?_eq_head_filter, hfe]; rfl
        refine ⟨x.2, 1, by simp [hes], ?_, ?_⟩
        · intro e' he'
          rw [hes] at he'
          simp at he'
          rw [he']
        · rw [hfold]
          unfold insertScanned
          rw [hfind]
          simp only []
          rw [List.filter_append, hfe]
          simp [hk]
      · -- k already has a descriptor
        obtain ⟨e, c, he, hmax, hfilter⟩ := (ih hn1).2 hes
        have hfind : (indexFold R l).descs.find? (fun d => d.key = x.2.key)
            = some ⟨k, e.id, e.value, c⟩ := by
          rw [hk, find?_eq_head_filter, hfilter]; rfl
        rcases Nat.lt_trichotomy e.id x.2.id with hlt | heq | hgt
        · -- newer version wins
          refine ⟨x.2, 1, by simp, ?_, ?_⟩
          · intro e' he'
            rcases List.mem_append.mp he' with h | h
            · exact Nat.le_of_lt (Nat.lt_of_le_of_lt (hmax e' h) hlt)
            · simp at h; rw [h]
          · rw [hfold]
            unfold insertScanned
            rw [hfind]
            simp only []
            rw [if_pos hlt]
            rw [filter_map_keyPreserving _ k
              (by intro d'; by_cases hd : d'.key = x.2.key <;> simp [hd])]
            rw [hfilter]
            simp [hk]
        · -- equal ids for k are excluded by the Nodup hypothesis
          exfalso
          have hmem1 : e.id ∈ ((l.map Prod.snd).filter fun e => e.key = k).map
              (fun e => e.id) := List.mem_map_of_mem _ he
          have hmem2 : e.id ∈ ([x.2].map fun e => e.id) := by simp [heq]
          exact hdisj hmem1 hmem2
        · -- stale version: descriptor unchanged
          refine ⟨e, c, List.mem_append.mpr (Or.inl he), ?_, ?_⟩
          · intro e' he'
            rcases List.mem_append.mp he' with h | h
            · exact hmax e' h
            · simp at h; rw [h]; exact Nat.le_of_lt hgt
          · rw [hfold]
            unfold insertScanned
            rw [hfind]
            simp only []
            rw [if_neg (by omega), if_pos hgt]
            exact hfilter
    · -- the appended entry is for another key
      have hx : ((l ++ [x]).map Prod.snd).filter (fun e => e.key = k)
          = ((l.map Prod.snd).filter fun e => e.key = k) := by
        simp [List.filter_append, hk]
      rw [hx] at hnodup ⊢
      have hins := insertScanned_filter_ne R (indexFold R l) x.1 x.2 k hk
      rw [hfold]
      obtain ⟨ih1, ih2⟩ := ih hnodup
      refine ⟨fun h => by rw [hins]; exact ih1 h, fun h => ?_⟩
      obtain ⟨e, c, he, hmax, hfilter⟩ := ih2 h
      exact ⟨e, c, he, hmax, by rw [hins]; exact hfilter⟩

/-- The descriptor table produced by Init does not depend on the recovery
policy. -/
lemma initKvs_descs (formats : List EntryFormat) (R S : Nat)
    (policy : RecoveryPolicy) (image : List (List Nat)) :
    (initKvs formats R S policy image).descs
      = (buildIndex R (image.map (scanSector formats))).descs := by
  cases policy <;> rfl

/-- C1: for every live key `k` of an initialized store, Get returns Ok with
the value of the verified durably-written entry with the greatest
transaction id, and `size()` counts `k` once (exactly one descriptor). -/
theorem claimC1 (formats : List EntryFormat) (R S : Nat)
    (policy : RecoveryPolicy) (image : List (List Nat)) (k : List Nat)
    (hne : verifiedEntriesFor formats image k ≠ [])
    (hnodup : ((verifiedEntriesFor formats image k).map fun e => e.id).Nodup) :
    ∃ e, e ∈ verifiedEntriesFor formats image k
      ∧ (∀ e' ∈ verifiedEntriesFor formats image k, e'.id ≤ e.id)
      ∧ kvsGet (initKvs formats R S policy image) k = .ok e.value
      ∧ ((initKvs formats R S policy image).descs.filter
          (fun d => d.key = k)).length = 1 := by
  have hspec := indexFold_filter_spec R k
    (sectorEntries (image.map (scanSector formats)))
  rw [show ((sectorEntries (image.map (scanSector formats))).map Prod.snd).filter
      (fun e => e.key = k) = verifiedEntriesFor formats image k from rfl] at hspec
  obtain ⟨e, c, he, hmax, hfilter⟩ := (hspec hnodup).2 hne
  refine ⟨e, he, hmax, ?_, ?_⟩
  · rw [kvsGet.eq_def, initKvs_descs, buildIndex, find?_eq_head_filter, hfilter]
    rfl
  · rw [initKvs_descs, buildIndex, hfilter]
    rfl

/-- C1 witness: the Init_CorruptKey_RevertsToPreviousVersion scenario.
After corrupting a byte of version 8, the only verified entry for "my_key"
is version 7; Get returns "version 7" and the key is counted once. -/
theorem claimC1_witness :
    (verifiedEntriesFor singleFormat imgV78 (bytesOfString "my_key") ≠ []
      ∧ ((verifiedEntriesFor singleFormat imgV78 (bytesOfString "my_key")).map
          fun e => e.id).Nodup)
    ∧ (∃ e, e ∈ verifiedEntriesFor singleFormat imgV78 (bytesOfString "my_key")
        ∧ (∀ e' ∈ verifiedEntriesFor singleFormat imgV78 (bytesOfString "my_key"),
            e'.id ≤ e.id)
        ∧ kvsGet (initKvs singleFormat 1 512 .manual imgV78)
            (bytesOfString "my_key") = .ok e.value
        ∧ ((initKvs singleFormat 1 512 .manual imgV78).descs.filter
            (fun d => d.key = bytesOfString "my_key")).length = 1)
    ∧ kvsGet (initKvs singleFormat 1 512 .manual imgV78) (bytesOfString "my_key")
        = .ok (bytesOfString "version 7")
    ∧ kvsSize (initKvs singleFormat 1 512 .manual imgV78) = 1 :=
  ⟨⟨by decide, by decide⟩,
    claimC1 singleFormat 1 512 .manual imgV78 (bytesOfString "my_key")
      (by decide) (by decide),
    by decide, by decide⟩

/-! ### C4: recovery policies on a corrupt image -/

lemma sum_map_filter_split {α : Type} (p : α → Bool) (f : α → Nat) :
    ∀ l : List α,
      (l.map f).sum
        = ((l.filter p).map f).sum + ((l.filter fun a => ! p a).map f).sum := by
  intro l
  induction l with
  | nil => rfl
  | cons a l ih =>
    rw [List.map_cons, List.sum_cons]
    cases h : p a
    · rw [List.filter_cons_of_neg (by rw [h]; exact Bool.false_ne_true),
        List.filter_cons_of_pos (by rw [h]; rfl), List.map_cons, List.sum_cons, ih]
      omega
    · rw [List.filter_cons_of_pos (by rw [h]), List.filter_cons_of_neg
        (by rw [h]; exact Bool.false_ne_true), List.map_cons, List.sum_cons, ih]
      omega

/-- C4 as stated is false on the model built to check it: on `imgStale` —
a corrupt entry in sector 0 and a superseded 32-byte old version of "key1"
in the intact sector 1 — Lazy Init reports Ok and recovers the corrupt
sector, yet `reclaimable_bytes` is 32, not 0: the stale bytes in the
intact sector are not reclaimed by Init-time recovery, which only
garbage-collects corrupt sectors. -/
theorem claimC4_counterexample :
    corruptCount (buildIndex 1 (imgStale.map (scanSector singleFormat)))
        (imgStale.map (scanSector singleFormat)) ≠ 0
    ∧ (initKvs singleFormat 1 512 .lazy imgStale).status = .ok
    ∧ (initKvs singleFormat 1 512 .lazy imgStale).corruptSectorsRecovered = 1
    ∧ (initKvs singleFormat 1 512 .lazy imgStale).reclaimable = 32
    ∧ (initKvs singleFormat 1 512 .lazy imgStale).reclaimable ≠ 0 :=
  ⟨by decide, by decide, by decide, by decide, by decide⟩

/-- C4 (amended): for every flash image in which the scan finds at least
one corrupt sector, Init under Manual returns DataLoss and performs no
compaction — nothing is counted recovered and the corrupt sectors' bytes
remain part of `reclaimable_bytes` — while Init under Lazy returns Ok and
recovers exactly the corrupt sectors: `corrupt_sectors_recovered` grows by
their number (becoming positive) and `reclaimable_bytes` drops to the
stale bytes remaining in the intact sectors — 0 when the intact sectors
hold no superseded entries, as in the cited tests, but not in general.
Under both policies every live key with verified entries remains readable:
Get returns Ok with the value of its greatest-transaction-id verified
entry. -/
theorem claimC4 (formats : List EntryFormat) (R S : Nat)
    (image : List (List Nat))
    (hc : corruptCount (buildIndex R (image.map (scanSector formats)))
        (image.map (scanSector formats)) ≠ 0) :
    (initKvs formats R S .manual image).status = .dataLoss
    ∧ (initKvs formats R S .manual image).corruptSectorsRecovered = 0
    ∧ (initKvs formats R S .lazy image).status = .ok
    ∧ (initKvs formats R S .lazy image).corruptSectorsRecovered
        = corruptCount (buildIndex R (image.map (scanSector formats)))
            (image.map (scanSector formats))
    ∧ 0 < (initKvs formats R S .lazy image).corruptSectorsRecovered
    ∧ (initKvs formats R S .manual image).reclaimable
        = (((image.map (scanSector formats)).enum.filter fun q =>
              sectorCorrupt (buildIndex R (image.map (scanSector formats)))
                q.1 q.2).map
            fun q => reclaimableOfSector S
              (buildIndex R (image.map (scanSector formats))) q.1 q.2).sum
          + (initKvs formats R S .lazy image).reclaimable
    ∧ (initKvs formats R S .lazy image).reclaimable
        = reclaimableIntact S (buildIndex R (image.map (scanSector formats)))
            (image.map (scanSector formats))
    ∧ (∀ k, verifiedEntriesFor formats image k ≠ [] →
        ((verifiedEntriesFor formats image k).map fun e => e.id).Nodup →
        ∃ e, e ∈ verifiedEntriesFor formats image k
          ∧ (∀ e' ∈ verifiedEntriesFor formats image k, e'.id ≤ e.id)
          ∧ kvsGet (initKvs formats R S .manual image) k = .ok e.value
          ∧ kvsGet (initKvs formats R S .lazy image) k = .ok e.value) := by
  refine ⟨?_, rfl, rfl, rfl, ?_, ?_, rfl, ?_⟩
  · show (if corruptCount (buildIndex R (image.map (scanSector formats)))
        (image.map (scanSector formats)) = 0 then Status.ok else .dataLoss)
      = .dataLoss
    rw [if_neg hc]
  · show 0 < corruptCount (buildIndex R (image.map (scanSector formats)))
      (image.map (scanSector formats))
    omega
  · show reclaimableAll S (buildIndex R (image.map (scanSector formats)))
        (image.map (scanSector formats))
      = _ + reclaimableIntact S (buildIndex R (image.map (scanSector formats)))
          (image.map (scanSector formats))
    unfold reclaimableAll reclaimableIntact
    exact sum_map_filter_split _ _ _
  · intro k hne hnodup
    have hspec := indexFold_filter_spec R k
      (sectorEntries (image.map (scanSector formats)))
    rw [show ((sectorEntries (image.map (scanSector formats))).map Prod.snd).filter
        (fun e => e.key = k) = verifiedEntriesFor formats image k from rfl]
      at hspec
    obtain ⟨e, c, he, hmax, hfilter⟩ := (hspec hnodup).2 hne
    refine ⟨e, he, hmax, ?_, ?_⟩
    · rw [kvsGet.eq_def, initKvs_descs, buildIndex, find?_eq_head_filter, hfilter]
      rfl
    · rw [kvsGet.eq_def, initKvs_descs, buildIndex, find?_eq_head_filter, hfilter]
      rfl

/-- C4 witness: the Init_CorruptKey image (one corrupt sector, no stale
entries in intact sectors), checked against the concrete numbers the tests
assert: Manual keeps 480 bytes reclaimable, Lazy recovers the sector
(reclaimable 0, one corrupt sector recovered), and "my_key" reads back as
"version 7" under both policies. -/
theorem claimC4_witness :
    (corruptCount (buildIndex 1 (imgV78.map (scanSector singleFormat)))
        (imgV78.map (scanSector singleFormat)) ≠ 0)
    ∧ ((initKvs singleFormat 1 512 .manual imgV78).status = .dataLoss
      ∧ (initKvs singleFormat 1 512 .manual imgV78).corruptSectorsRecovered = 0
      ∧ (initKvs singleFormat 1 512 .lazy imgV78).status = .ok
      ∧ (initKvs singleFormat 1 512 .lazy imgV78).corruptSectorsRecovered
          = corruptCount (buildIndex 1 (imgV78.map (scanSector singleFormat)))
              (imgV78.map (scanSector singleFormat))
      ∧ 0 < (initKvs singleFormat 1 512 .lazy imgV78).corruptSectorsRecovered
      ∧ (initKvs singleFormat 1 512 .manual imgV78).reclaimable
          = (((imgV78.map (scanSector singleFormat)).enum.filter fun q =>
                sectorCorrupt (buildIndex 1 (imgV78.map (scanSector singleFormat)))
                  q.1 q.2).map
              fun q => reclaimableOfSector 512
                (buildIndex 1 (imgV78.map (scanSector singleFormat))) q.1 q.2).sum
            + (initKvs singleFormat 1 512 .lazy imgV78).reclaimable
      ∧ (initKvs singleFormat 1 512 .lazy imgV78).reclaimable
          = reclaimableIntact 512
              (buildIndex 1 (imgV78.map (scanSector singleFormat)))
              (imgV78.map (scanSector singleFormat))
      ∧ (∀ k, verifiedEntriesFor singleFormat imgV78 k ≠ [] →
          ((verifiedEntriesFor singleFormat imgV78 k).map fun e => e.id).Nodup →
          ∃ e, e ∈ verifiedEntriesFor singleFormat imgV78 k
            ∧ (∀ e' ∈ verifiedEntriesFor singleFormat imgV78 k, e'.id ≤ e.id)
            ∧ kvsGet (initKvs singleFormat 1 512 .manual imgV78) k = .ok e.value
            ∧ kvsGet (initKvs singleFormat 1 512 .lazy imgV78) k = .ok e.value))
    ∧ (initKvs singleFormat 1 512 .manual imgV78).reclaimable = 480
    ∧ (initKvs singleFormat 1 512 .lazy imgV78).reclaimable = 0
    ∧ (initKvs singleFormat 1 512 .lazy imgV78).corruptSectorsRecovered = 1
    ∧ kvsGet (initKvs singleFormat 1 512 .lazy imgV78) (bytesOfString "my_key")
        = .ok (bytesOfString "version 7") :=
  ⟨by decide, claimC4 singleFormat 1 512 imgV78 (by decide),
    by decide, by decide, by decide, by decide⟩

/-! ### C6: equal transaction ids during the scan -/

/-- C6 as stated is false on the code: with two byte-identical copies of
`kEntry1` (equal ids, identical payloads) and redundancy 1, Init under
Manual recovery reports DataLoss, and the copies' sector is marked corrupt
— the duplicate is not silently accepted as a redundant copy. -/
theorem claimC6_counterexample :
    (initKvs singleFormat 1 512 .manual imgDup).status = .dataLoss
    ∧ sectorCorrupt (buildIndex 1 (imgDup.map (scanSector singleFormat))) 0
        ((imgDup.map (scanSector singleFormat)).getD 0 ⟨[], false⟩) = true :=
  ⟨by decide, by decide⟩

/-- C6 (amended): during the scan, an entry whose transaction id equals the
descriptor's is accepted as a redundant copy — leaving the corrupt-sector
bookkeeping untouched — only while the payload is byte-identical and the
descriptor still has fewer copies than the configured redundancy; an equal
id with a differing value, or a copy beyond the redundancy (as in the
duplicate-entry tests, where redundancy is 1), marks the entry's sector
corrupt.  The key stays readable either way: on the duplicate-`kEntry1`
image, Manual Init reports DataLoss yet serves "key1", and Lazy Init
reports Ok with one corrupt sector recovered. -/
theorem claimC6 (R : Nat) (st : IndexState) (s : Nat) (e : ParsedEntry)
    (d : KeyDesc)
    (hfind : st.descs.find? (fun d' => d'.key = e.key) = some d)
    (hid : d.id = e.id) :
    ((d.value = e.value ∧ d.copies < R) →
      insertScanned R st s e
        = { st with descs := st.descs.map fun d' =>
            if d'.key = e.key then { d' with copies := d'.copies + 1 } else d' })
    ∧ (¬ (d.value = e.value ∧ d.copies < R) →
      insertScanned R st s e = { st with dupCorrupt := st.dupCorrupt ++ [s] })
    ∧ (initKvs singleFormat 1 512 .manual imgDup).status = .dataLoss
    ∧ kvsGet (initKvs singleFormat 1 512 .manual imgDup) (bytesOfString "key1")
        = .ok (bytesOfString "value1")
    ∧ (initKvs singleFormat 1 512 .lazy imgDup).status = .ok
    ∧ (initKvs singleFormat 1 512 .lazy imgDup).corruptSectorsRecovered = 1
    ∧ kvsGet (initKvs singleFormat 1 512 .lazy imgDup) (bytesOfString "key1")
        = .ok (bytesOfString "value1") := by
  refine ⟨?_, ?_, by decide, by decide, by decide, by decide, by decide⟩
  · intro hdup
    unfold insertScanned
    rw [hfind]
    simp only []
    rw [if_neg (by omega), if_neg (by omega), if_pos hdup]
  · intro hdup
    unfold insertScanned
    rw [hfind]
    simp only []
    rw [if_neg (by omega), if_neg (by omega), if_neg hdup]

/-- C6 witness: a store with redundancy 2 holding one copy of "key1";
a second byte-identical copy with the same transaction id is accepted as a
redundant copy (no sector is marked corrupt), while a same-id copy with a
different value marks its sector corrupt. -/
theorem claimC6_witness :
    ((IndexState.mk [⟨bytesOfString "key1", 1, bytesOfString "value1", 1⟩] []).descs.find?
        (fun d' => d'.key = (ParsedEntry.mk kMagic 1 (bytesOfString "key1")
          (bytesOfString "value1") 32).key)
      = some ⟨bytesOfString "key1", 1, bytesOfString "value1", 1⟩
      ∧ (KeyDesc.mk (bytesOfString "key1") 1 (bytesOfString "value1") 1).id
          = (ParsedEntry.mk kMagic 1 (bytesOfString "key1")
              (bytesOfString "value1") 32).id)
    ∧ ((((KeyDesc.mk (bytesOfString "key1") 1 (bytesOfString "value1") 1).value
          = (ParsedEntry.mk kMagic 1 (bytesOfString "key1")
              (bytesOfString "value1") 32).value
        ∧ (KeyDesc.mk (bytesOfString "key1") 1 (bytesOfString "value1") 1).copies < 2) →
      insertScanned 2
          (IndexState.mk [⟨bytesOfString "key1", 1, bytesOfString "value1", 1⟩] []) 0
          (ParsedEntry.mk kMagic 1 (bytesOfString "key1") (bytesOfString "value1") 32)
        = { IndexState.mk [⟨bytesOfString "key1", 1, bytesOfString "value1", 1⟩] [] with
            descs := (IndexState.mk
                [⟨bytesOfString "key1", 1, bytesOfString "value1", 1⟩] []).descs.map
              fun d' =>
                if d'.key = (ParsedEntry.mk kMagic 1 (bytesOfString "key1")
                    (bytesOfString "value1") 32).key then
                  { d' with copies := d'.copies + 1 }
                else d' })) :=
  ⟨⟨by decide, by decide⟩,
    (claimC6 2 (IndexState.mk [⟨bytesOfString "key1", 1, bytesOfString "value1", 1⟩] [])
      0 (ParsedEntry.mk kMagic 1 (bytesOfString "key1") (bytesOfString "value1") 32)
      ⟨bytesOfString "key1", 1, bytesOfString "value1", 1⟩
      (by decide) (by decide)).1⟩

/-! ### C3: the format and transaction id Put serializes with -/

/-- C3 as stated is false on the code: per the repository's own
PutExistingEntry_UsesFirstFormat test, updating "A Key" — whose existing
entry `kAltEntry` uses the alt format (magic 0xbadd00d) and id 32 — in the
multi-format store whose last transaction id is 64 writes exactly
`MakeValidEntry(kMagic, 65, ...)`: the FIRST configured format with the
store-global id 65, not the existing key's format with id 33; likewise a
brand-new key gets id 65, not 1 (PutNewEntry_UsesFirstFormat). -/
theorem claimC3_counterexample :
    putEntryBytes multiFormats 64 (bytesOfString "A Key")
        (bytesOfString "New value!")
      = makeValidEntry simpleChecksum kMagic 65 (bytesOfString "A Key")
          (bytesOfString "New value!")
    ∧ putEntryBytes multiFormats 64 (bytesOfString "A Key")
        (bytesOfString "New value!")
      ≠ putEntryBytesClaimed multiFormats
          (some (⟨kAltMagic, some altChecksum⟩, 32))
          (bytesOfString "A Key") (bytesOfString "New value!")
    ∧ putEntryBytes multiFormats 64 (bytesOfString "new key")
        (bytesOfString "abcd?")
      ≠ putEntryBytesClaimed multiFormats none (bytesOfString "new key")
          (bytesOfString "abcd?") :=
  ⟨by decide, by decide, by decide⟩

/-- C3 (amended): every Put — update or new key — serializes its entry with
the first configured EntryFormat and transaction id `lastId + 1`, where
`lastId` is the largest transaction id the store has seen (a global
counter).  On the multi-format store of the tests this reproduces byte for
byte the entries the tests expect on flash, and the written entries parse
back under the configured formats with the put key, value and id. -/
theorem claimC3 :
    (∀ (f : EntryFormat) (fs : List EntryFormat) (lastId : Nat)
        (key value : List Nat),
      putEntryBytes (f :: fs) lastId key value
        = makeValidEntry (f.checksum.getD noChecksum) f.magic (lastId + 1)
            key value)
    ∧ putEntryBytes multiFormats 64 (bytesOfString "A Key")
        (bytesOfString "New value!")
      = makeValidEntry simpleChecksum kMagic 65 (bytesOfString "A Key")
          (bytesOfString "New value!")
    ∧ putEntryBytes multiFormats 64 (bytesOfString "new key")
        (bytesOfString "abcd?")
      = makeValidEntry simpleChecksum kMagic 65 (bytesOfString "new key")
          (bytesOfString "abcd?")
    ∧ parseEntry multiFormats
        (putEntryBytes multiFormats 64 (bytesOfString "A Key")
          (bytesOfString "New value!")) 0
      = some ⟨kMagic, 65, bytesOfString "A Key", bytesOfString "New value!", 32⟩
    ∧ parseEntry multiFormats
        (putEntryBytes multiFormats 64 (bytesOfString "new key")
          (bytesOfString "abcd?")) 0
      = some ⟨kMagic, 65, bytesOfString "new key", bytesOfString "abcd?", 32⟩ :=
  ⟨fun _ _ _ _ _ => rfl, by decide, by decide, by decide, by decide⟩

/-! ### C9: FullMaintenance is idempotent at steady state -/

lemma filter_corrupt_after_gc (l : List MSector) :
    ((l.map fun sec => (⟨sec.live, 0, false⟩ : MSector)).filter
      fun sec => sec.corrupt) = [] := by
  induction l with
  | nil => rfl
  | cons a l ih => simpa using ih

lemma sum_missing_after_repair (R : Nat) (l : List Nat) :
    (((l.map fun _ => R).map fun c => R - c).sum) = 0 := by
  induction l with
  | nil => rfl
  | cons a l ih => simpa using ih

/-- C9: FullMaintenance is idempotent at steady state: it always returns
Ok, and immediately after one completed FullMaintenance a second call
returns Ok and leaves every `GetStorageStats` counter — in_use_bytes,
reclaimable_bytes, writable_bytes, corrupt_sectors_recovered,
missing_redundant_entries_recovered — unchanged. -/
theorem claimC9 (s : MState) :
    (fullMaintenance s).1 = .ok
    ∧ (fullMaintenance (fullMaintenance s).2).1 = .ok
    ∧ mStats (fullMaintenance (fullMaintenance s).2).2
        = mStats (fullMaintenance s).2 := by
  refine ⟨rfl, rfl, ?_⟩
  have hsec : ((s.sectors.map fun sec => (⟨sec.live, 0, false⟩ : MSector)).map
      fun sec => (⟨sec.live, 0, false⟩ : MSector))
      = s.sectors.map fun sec => (⟨sec.live, 0, false⟩ : MSector) := by
    rw [List.map_map]
    rfl
  have hcor := filter_corrupt_after_gc s.sectors
  have hmiss := sum_missing_after_repair s.redundancy s.keyCopies
  show MStats.mk _ _ _ _ _ = MStats.mk _ _ _ _ _
  rw [MStats.mk.injEq]
  refine ⟨?_, ?_, ?_, ?_, ?_⟩
  · show ((fullMaintenance (fullMaintenance s).2).2.sectors.map
        fun sec => sec.live).sum = _
    rw [show (fullMaintenance (fullMaintenance s).2).2.sectors
        = (s.sectors.map fun sec => (⟨sec.live, 0, false⟩ : MSector)).map
          fun sec => (⟨sec.live, 0, false⟩ : MSector) from rfl, hsec]
    rfl
  · show ((fullMaintenance (fullMaintenance s).2).2.sectors.map
        fun sec => sec.reclaimable).sum = _
    rw [show (fullMaintenance (fullMaintenance s).2).2.sectors
        = (s.sectors.map fun sec => (⟨sec.live, 0, false⟩ : MSector)).map
          fun sec => (⟨sec.live, 0, false⟩ : MSector) from rfl, hsec]
    rfl
  · show (s.sectorCount - 1) * s.sectorSize - _ - _
        = (s.sectorCount - 1) * s.sectorSize - _ - _
    rw [show (fullMaintenance (fullMaintenance s).2).2.sectors
        = (s.sectors.map fun sec => (⟨sec.live, 0, false⟩ : MSector)).map
          fun sec => (⟨sec.live, 0, false⟩ : MSector) from rfl, hsec]
    rfl
  · show (fullMaintenance s).2.corruptRecovered
        + (((fullMaintenance s).2.sectors.filter fun sec => sec.corrupt)).length
      = (fullMaintenance s).2.corruptRecovered
    rw [show (fullMaintenance s).2.sectors
        = s.sectors.map fun sec => (⟨sec.live, 0, false⟩ : MSector) from rfl,
      hcor]
    rfl
  · show (fullMaintenance s).2.missingRecovered
        + (((fullMaintenance s).2.keyCopies.map
          fun c => (fullMaintenance s).2.redundancy - c)).sum
      = (fullMaintenance s).2.missingRecovered
    rw [show (fullMaintenance s).2.keyCopies
        = s.keyCopies.map fun _ => s.redundancy from rfl,
      show (fullMaintenance s).2.redundancy = s.redundancy from rfl, hmiss]
    rfl

/-! ### C2: a failed flash write does not commit the key -/

lemma foldl_argmax_mem (l : List (Nat × Nat)) :
    ∀ (acc : Option (Nat × Nat)) (r : Nat × Nat),
      l.foldl
        (fun acc q =>
          match acc with
          | none => some q
          | some r => if r.2 < q.2 then some q else some r) acc = some r →
      acc = some r ∨ r ∈ l := by
  induction l with
  | nil => exact fun _ _ h => Or.inl h
  | cons q l ih =>
    intro acc r h
    rw [List.foldl_cons] at h
    rcases ih _ r h with h2 | h2
    · cases acc with
      | none =>
        have h3 : some q = some r := h2
        right
        rw [← Option.some.inj h3]
        exact List.mem_cons_self q l
      | some p =>
        have h3 : (if p.2 < q.2 then some q else some p) = some r := h2
        by_cases hc : p.2 < q.2
        · rw [if_pos hc] at h3
          right
          rw [← Option.some.inj h3]
          exact List.mem_cons_self q l
        · rw [if_neg hc] at h3
          exact Or.inl h3
    · exact Or.inr (List.mem_cons_of_mem q h2)

lemma argmaxFirst_spec (l : List Nat) (r : Nat × Nat)
    (h : argmaxFirst l = some r) : r.1 < l.length ∧ l.getD r.1 0 = r.2 := by
  have hmem : r ∈ l.enum := by
    rcases foldl_argmax_mem l.enum none r h with h2 | h2
    · exact absurd h2 (by simp)
    · exact h2
  have hx := List.mem_enum_iff_getElem?.mp hmem
  obtain ⟨hlt, hval⟩ := List.getElem?_eq_some.mp hx
  exact ⟨hlt, by rw [List.getD_eq_getElem l 0 hlt, hval]⟩

lemma selectSector_spec (k : PutKvs) (size : Nat) (i : Nat)
    (h : selectSector k size = some i) :
    i < k.sectors.length
    ∧ size ≤ freeTail k.sectorSize (k.sectors.getD i ⟨0, false⟩) := by
  unfold selectSector at h
  cases hm : argmaxFirst (k.sectors.map (freeTail k.sectorSize)) with
  | none => rw [hm] at h; exact absurd h (by simp)
  | some r =>
    rw [hm] at h
    have h2 : (if size ≤ r.2 then some r.1 else none) = some i := h
    by_cases hs : size ≤ r.2
    · rw [if_pos hs] at h2
      obtain ⟨hlt, hval⟩ := argmaxFirst_spec _ r hm
      have hi : r.1 = i := Option.some.inj h2
      rw [List.length_map] at hlt
      have hsome : k.sectors[r.1]? = some (k.sectors.getD r.1 ⟨0, false⟩) := by
        rw [List.getD_eq_getElem _ _ hlt]
        exact List.getElem?_eq_some.mpr ⟨hlt, rfl⟩
      have hgd : (k.sectors.map (freeTail k.sectorSize)).getD r.1 0
          = freeTail k.sectorSize (k.sectors.getD r.1 ⟨0, false⟩) := by
        rw [List.getD_eq_getElem?_getD, List.getElem?_map, hsome]
        rfl
      rw [← hval, hgd] at hs
      rw [← hi]
      exact ⟨hlt, hs⟩
    · rw [if_neg hs] at h2
      exact absurd h2 (by simp)

lemma getD_enum_update (l : List PutSector) (g : Nat × PutSector → PutSector)
    (j : Nat) (hj : j < l.length) :
    (l.enum.map g).getD j ⟨0, false⟩ = g (j, l.getD j ⟨0, false⟩) := by
  have hj1 : j < (l.enum.map g).length := by
    rw [List.length_map, List.enum_length]; exact hj
  have hj2 : j < l.enum.length := by rw [List.enum_length]; exact hj
  rw [List.getD_eq_getElem _ _ hj1, List.getElem_map, List.getElem_enum,
    List.getD_eq_getElem _ _ hj]

lemma kvsPut_fail_eq (k : PutKvs) (key : List Nat) (size : Nat) (e : Status)
    (i : Nat) (hsel : selectSector k size = some i) :
    kvsPut k key size (some e)
      = (e,
        { k with
          sectors := k.sectors.enum.map fun q =>
            if q.1 = i then ⟨q.2.used + size, true⟩ else q.2
          errorDetected := true }) := by
  unfold kvsPut
  rw [hsel]

lemma kvsPut_ok_eq (k : PutKvs) (key : List Nat) (size : Nat)
    (j : Nat) (hsel : selectSector k size = some j) :
    kvsPut k key size none
      = (.ok,
        { k with
          sectors := k.sectors.enum.map fun q =>
            if q.1 = j then ⟨q.2.used + size, q.2.dead⟩ else q.2
          index := (k.index.filter fun q => ¬ q.1 = key) ++ [(key, k.lastId + 1)]
          lastId := k.lastId + 1 }) := by
  unfold kvsPut
  rw [hsel]

lemma find?_append_some_right {α : Type} (p : α → Bool) (l1 l2 : List α)
    (x : α) (h2 : l2.find? p = some x) : ∃ y, (l1 ++ l2).find? p = some y := by
  rw [List.find?_append]
  cases h1 : l1.find? p with
  | none => exact ⟨x, by rw [h2]; rfl⟩
  | some a => exact ⟨a, rfl⟩

/-- C2: when the underlying flash write fails during a Put of a fresh key,
the Put returns the underlying error unchanged, the key is not committed
(the index, transaction id, and hence Get/size/empty are as before, and Get
reports NotFound), `error_detected` becomes true, and the consumed bytes
are marked used: any subsequent Put of the same entry size lands in a
different sector, at a byte interval disjoint from the failed one, and
succeeds, committing the key. -/
theorem claimC2 (k : PutKvs) (key : List Nat) (size : Nat) (e : Status)
    (hsize : 0 < size) (i : Nat)
    (hsel : selectSector k size = some i)
    (hnew : k.index.find? (fun q => q.1 = key) = none) :
    (kvsPut k key size (some e)).1 = e
    ∧ (kvsPut k key size (some e)).2.index = k.index
    ∧ (kvsPut k key size (some e)).2.lastId = k.lastId
    ∧ (kvsPut k key size (some e)).2.errorDetected = true
    ∧ putKvsGetStatus (kvsPut k key size (some e)).2 key = .notFound
    ∧ (∀ j, selectSector (kvsPut k key size (some e)).2 size = some j →
        j ≠ i
        ∧ (kvsPut (kvsPut k key size (some e)).2 key size none).1 = .ok
        ∧ putKvsGetStatus
            (kvsPut (kvsPut k key size (some e)).2 key size none).2 key = .ok
        ∧ (putOffset (kvsPut k key size (some e)).2 j + size ≤ putOffset k i
          ∨ putOffset k i + size
              ≤ putOffset (kvsPut k key size (some e)).2 j)) := by
  have hfail := kvsPut_fail_eq k key size e i hsel
  obtain ⟨hil, hif⟩ := selectSector_spec k size i hsel
  have hsi : (k.sectors.getD i ⟨0, false⟩).used + size ≤ k.sectorSize := by
    unfold freeTail at hif
    by_cases hd : (k.sectors.getD i ⟨0, false⟩).dead
    · rw [if_pos hd] at hif; omega
    · rw [if_neg hd] at hif; omega
  refine ⟨by rw [hfail], by rw [hfail], by rw [hfail], by rw [hfail], ?_, ?_⟩
  · rw [hfail]
    show (match k.index.find? (fun q => q.1 = key) with
      | some _ => Status.ok
      | none => Status.notFound) = Status.notFound
    rw [hnew]
  · intro j hj
    have hk1len : (kvsPut k key size (some e)).2.sectors.length
        = k.sectors.length := by
      rw [hfail]
      show (k.sectors.enum.map _).length = _
      rw [List.length_map, List.enum_length]
    obtain ⟨hjl, hjf⟩ := selectSector_spec _ size j hj
    rw [hk1len] at hjl
    have hupd : (kvsPut k key size (some e)).2.sectors.getD j ⟨0, false⟩
        = if j = i then ⟨(k.sectors.getD j ⟨0, false⟩).used + size, true⟩
          else k.sectors.getD j ⟨0, false⟩ := by
      rw [hfail]
      exact getD_enum_update k.sectors _ j hjl
    have hS : (kvsPut k key size (some e)).2.sectorSize = k.sectorSize := by
      rw [hfail]
    rw [hupd, hS] at hjf
    have hji : j ≠ i := by
      intro heq
      rw [if_pos heq] at hjf
      unfold freeTail at hjf
      rw [if_pos rfl] at hjf
      omega
    rw [if_neg hji] at hjf
    have hsj : (k.sectors.getD j ⟨0, false⟩).used + size ≤ k.sectorSize := by
      unfold freeTail at hjf
      by_cases hd : (k.sectors.getD j ⟨0, false⟩).dead
      · rw [if_pos hd] at hjf; omega
      · rw [if_neg hd] at hjf; omega
    refine ⟨hji, ?_, ?_, ?_⟩
    · rw [kvsPut_ok_eq _ key size j hj]
    · obtain ⟨y, hy⟩ := find?_append_some_right
        (fun q : List Nat × Nat => q.1 = key)
        ((kvsPut k key size (some e)).2.index.filter fun q => ¬ q.1 = key)
        [(key, (kvsPut k key size (some e)).2.lastId + 1)]
        (key, (kvsPut k key size (some e)).2.lastId + 1) (by simp)
      have hidx : (kvsPut (kvsPut k key size (some e)).2 key size none).2.index
          = ((kvsPut k key size (some e)).2.index.filter fun q => ¬ q.1 = key)
            ++ [(key, (kvsPut k key size (some e)).2.lastId + 1)] := by
        rw [kvsPut_ok_eq _ key size j hj]
      unfold putKvsGetStatus
      rw [hidx, hy]
    · have hoj : putOffset (kvsPut k key size (some e)).2 j
          = j * k.sectorSize + (k.sectors.getD j ⟨0, false⟩).used := by
        unfold putOffset
        rw [hupd, if_neg hji, hS]
      have hoi : putOffset k i
          = i * k.sectorSize + (k.sectors.getD i ⟨0, false⟩).used := rfl
      rcases Nat.lt_or_ge j i with hlt | hge
      · left
        rw [hoj, hoi]
        have hmul : (j + 1) * k.sectorSize ≤ i * k.sectorSize :=
          Nat.mul_le_mul_right _ hlt
        rw [Nat.succ_mul] at hmul
        omega
      · have hgt : i < j := by omega
        right
        rw [hoj, hoi]
        have hmul : (i + 1) * k.sectorSize ≤ j * k.sectorSize :=
          Nat.mul_le_mul_right _ hgt
        rw [Nat.succ_mul] at hmul
        omega

/-- C2 witness: the Put_WriteFailure scenario — a one-shot Unavailable
write failure on the empty store: the failed 32-byte Put of "key1" keeps
the store empty with `error_detected`, and the retry lands at offset 512
(sector 1), disjoint from the failed bytes at offset 0, and commits. -/
theorem claimC2_witness :
    (0 < 32 ∧ selectSector emptyPutKvs 32 = some 0
      ∧ emptyPutKvs.index.find?
          (fun q => q.1 = bytesOfString "key1") = none)
    ∧ ((kvsPut emptyPutKvs (bytesOfString "key1") 32 (some .unavailable)).1
        = .unavailable
      ∧ (kvsPut emptyPutKvs (bytesOfString "key1") 32 (some .unavailable)).2.index
        = emptyPutKvs.index
      ∧ (kvsPut emptyPutKvs (bytesOfString "key1") 32 (some .unavailable)).2.lastId
        = emptyPutKvs.lastId
      ∧ (kvsPut emptyPutKvs (bytesOfString "key1") 32
          (some .unavailable)).2.errorDetected = true
      ∧ putKvsGetStatus
          (kvsPut emptyPutKvs (bytesOfString "key1") 32 (some .unavailable)).2
          (bytesOfString "key1") = .notFound
      ∧ (∀ j, selectSector
            (kvsPut emptyPutKvs (bytesOfString "key1") 32 (some .unavailable)).2 32
            = some j →
          j ≠ 0
          ∧ (kvsPut (kvsPut emptyPutKvs (bytesOfString "key1") 32
              (some .unavailable)).2 (bytesOfString "key1") 32 none).1 = .ok
          ∧ putKvsGetStatus
              (kvsPut (kvsPut emptyPutKvs (bytesOfString "key1") 32
                (some .unavailable)).2 (bytesOfString "key1") 32 none).2
              (bytesOfString "key1") = .ok
          ∧ (putOffset (kvsPut emptyPutKvs (bytesOfString "key1") 32
              (some .unavailable)).2 j + 32 ≤ putOffset emptyPutKvs 0
            ∨ putOffset emptyPutKvs 0 + 32
                ≤ putOffset (kvsPut emptyPutKvs (bytesOfString "key1") 32
                  (some .unavailable)).2 j)))
    ∧ selectSector
        (kvsPut emptyPutKvs (bytesOfString "key1") 32 (some .unavailable)).2 32
      = some 1
    ∧ putOffset
        (kvsPut emptyPutKvs (bytesOfString "key1") 32 (some .unavailable)).2 1
      = 512
    ∧ putOffset emptyPutKvs 0 = 0 :=
  ⟨⟨by decide, by decide, by decide⟩,
    claimC2 emptyPutKvs (bytesOfString "key1") 32 .unavailable (by decide) 0
      (by decide) (by decide),
    by decide, by decide, by decide⟩

/-! ### C5: redundancy survives the loss of R−1 sectors -/

lemma getD_replicate {α : Type} (n : Nat) (a d : α) (i : Nat) :
    (List.replicate n a).getD i d = if i < n then a else d := by
  rw [List.getD_eq_getElem?_getD, List.getElem?_replicate]
  by_cases h : i < n
  · rw [if_pos h, if_pos h]
    rfl
  · rw [if_neg h, if_neg h]
    rfl

/-- A fully erased sector parses no entry at any offset, as long as no
configured format uses the all-erased magic word. -/
lemma parseEntry_erased (formats : List EntryFormat) (n off : Nat)
    (hm : ∀ f ∈ formats, f.magic ≠ kErasedMagic) :
    parseEntry formats (List.replicate n kErasedByte) off = none := by
  unfold parseEntry
  by_cases hb : off + entryHeaderSize > (List.replicate n kErasedByte).length
  · rw [if_pos hb]
  · rw [if_neg hb]
    rw [List.length_replicate] at hb
    push_neg at hb
    have h16 : off + 3 < n := by
      unfold entryHeaderSize at hb
      omega
    have hmagic : readLe32 (List.replicate n kErasedByte) off = kErasedMagic := by
      unfold readLe32
      rw [getD_replicate, getD_replicate, getD_replicate, getD_replicate,
        if_pos (by omega), if_pos (by omega), if_pos (by omega),
        if_pos (by omega)]
      rfl
    rw [hmagic]
    dsimp only
    rw [show formats.find? (fun f => f.magic = kErasedMagic) = none from
      List.find?_eq_none.mpr fun f hf => by simpa using hm f hf]

lemma getD_eraseImage (image : List (List Nat)) (toErase : List Nat) (j : Nat)
    (hj : j < image.length) :
    (eraseImageSectors image toErase).getD j []
      = if j ∈ toErase then
          List.replicate (image.getD j []).length kErasedByte
        else image.getD j [] := by
  unfold eraseImageSectors
  have hj1 : j < (image.enum.map fun q =>
      if q.1 ∈ toErase then List.replicate q.2.length kErasedByte
      else q.2).length := by
    rw [List.length_map, List.enum_length]; exact hj
  rw [List.getD_eq_getElem _ _ hj1, List.getElem_map, List.getElem_enum,
    List.getD_eq_getElem _ _ hj]

lemma findSome?_eq_none_of {α β : Type} (f : α → Option β) :
    ∀ l : List α, (∀ x ∈ l, f x = none) → l.findSome? f = none := by
  intro l
  induction l with
  | nil => intro _; rfl
  | cons a l ih =>
    intro h
    rw [List.findSome?_cons, h a (List.mem_cons_self a l)]
    exact ih fun x hx => h x (List.mem_cons_of_mem a hx)

lemma findSome?_eq_some_of {α β : Type} (f : α → Option β) (v : β) :
    ∀ l : List α, (∀ x ∈ l, f x = none ∨ f x = some v) →
      (∃ x ∈ l, f x = some v) → l.findSome? f = some v := by
  intro l
  induction l with
  | nil =>
    rintro _ ⟨x, hx, _⟩
    exact absurd hx (by simp)
  | cons a l ih =>
    rintro hall ⟨x, hx, hfx⟩
    rw [List.findSome?_cons]
    rcases hall a (List.mem_cons_self a l) with ha | ha
    · rw [ha]
      apply ih (fun y hy => hall y (List.mem_cons_of_mem a hy))
      rcases List.mem_cons.mp hx with heq | hx2
      · rw [heq] at hfx
        rw [hfx] at ha
        exact absurd ha (by simp)
      · exact ⟨x, hx2, hfx⟩
    · rw [ha]

/-- C5: for a key whose `R` redundant copies sit in `R` distinct sectors
and all verify, erasing any at most `R−1` sectors leaves Get returning Ok
with the original value; Get returns DataLoss exactly when every copy's
sector has been erased. -/
theorem claimC5 (formats : List EntryFormat) (image : List (List Nat))
    (key value : List Nat) (copies : List (Nat × Nat)) (R : Nat)
    (hR : copies.length = R) (hRpos : 0 < R)
    (hnodup : (copies.map Prod.fst).Nodup)
    (hsec : ∀ c ∈ copies, c.1 < image.length)
    (hintact : ∀ c ∈ copies, readCopy formats image key c = some value)
    (hmagic : ∀ f ∈ formats, f.magic ≠ kErasedMagic) :
    (∀ toErase : List Nat, toErase.length ≤ R - 1 →
      getRedundant formats (eraseImageSectors image toErase) key copies
        = .ok value)
    ∧ (∀ toErase : List Nat, (∀ c ∈ copies, c.1 ∈ toErase) →
      getRedundant formats (eraseImageSectors image toErase) key copies
        = .error .dataLoss) := by
  have hcopy : ∀ (toErase : List Nat), ∀ c ∈ copies,
      readCopy formats (eraseImageSectors image toErase) key c
        = if c.1 ∈ toErase then none else some value := by
    intro toErase c hc
    have hcl := hsec c hc
    by_cases hin : c.1 ∈ toErase
    · rw [if_pos hin]
      unfold readCopy
      rw [getD_eraseImage image toErase c.1 hcl, if_pos hin,
        parseEntry_erased formats _ c.2 hmagic]
    · rw [if_neg hin]
      have horig := hintact c hc
      unfold readCopy at horig ⊢
      rw [getD_eraseImage image toErase c.1 hcl, if_neg hin]
      exact horig
  constructor
  · intro toErase hlen
    have hsurv : ∃ c ∈ copies, c.1 ∉ toErase := by
      by_contra hno
      push_neg at hno
      have hsub : (copies.map Prod.fst) ⊆ toErase := by
        intro s hs
        obtain ⟨c, hc, hcs⟩ := List.mem_map.mp hs
        rw [← hcs]
        exact hno c hc
      have hcard := (List.subperm_of_subset hnodup hsub).length_le
      rw [List.length_map, hR] at hcard
      omega
    obtain ⟨c0, hc0, hc0out⟩ := hsurv
    unfold getRedundant
    rw [findSome?_eq_some_of _ value copies
      (fun x hx => by
        rw [hcopy toErase x hx]
        by_cases h : x.1 ∈ toErase
        · rw [if_pos h]; exact Or.inl rfl
        · rw [if_neg h]; exact Or.inr rfl)
      ⟨c0, hc0, by rw [hcopy toErase c0 hc0, if_neg hc0out]⟩]
  · intro toErase hall
    unfold getRedundant
    rw [findSome?_eq_none_of _ copies fun x hx => by
      rw [hcopy toErase x hx, if_pos (hall x hx)]]

/-- C5 witness: with the two copies of "key1" in sectors 0 and 1, erasing
sector 0 alone leaves Get = Ok "value1"; erasing both sectors loses every
copy and Get = DataLoss. -/
theorem claimC5_witness :
    ([(0, 0), (1, 0)].length = 2 ∧ 0 < 2
      ∧ (([(0, 0), (1, 0)] : List (Nat × Nat)).map Prod.fst).Nodup
      ∧ (∀ c ∈ ([(0, 0), (1, 0)] : List (Nat × Nat)), c.1 < imgRed.length)
      ∧ (∀ c ∈ ([(0, 0), (1, 0)] : List (Nat × Nat)),
          readCopy singleFormat imgRed (bytesOfString "key1") c
            = some (bytesOfString "value1"))
      ∧ (∀ f ∈ singleFormat, f.magic ≠ kErasedMagic))
    ∧ ((∀ toErase : List Nat, toErase.length ≤ 2 - 1 →
        getRedundant singleFormat (eraseImageSectors imgRed toErase)
          (bytesOfString "key1") [(0, 0), (1, 0)]
          = .ok (bytesOfString "value1"))
      ∧ (∀ toErase : List Nat,
          (∀ c ∈ ([(0, 0), (1, 0)] : List (Nat × Nat)), c.1 ∈ toErase) →
        getRedundant singleFormat (eraseImageSectors imgRed toErase)
          (bytesOfString "key1") [(0, 0), (1, 0)]
          = .error .dataLoss))
    ∧ getRedundant singleFormat (eraseImageSectors imgRed [0])
        (bytesOfString "key1") [(0, 0), (1, 0)]
      = .ok (bytesOfString "value1")
    ∧ getRedundant singleFormat (eraseImageSectors imgRed [0, 1])
        (bytesOfString "key1") [(0, 0), (1, 0)]
      = .error .dataLoss :=
  ⟨⟨by decide, by decide, by decide, by decide, by decide, by decide⟩,
    claimC5 singleFormat imgRed (bytesOfString "key1") (bytesOfString "value1")
      [(0, 0), (1, 0)] 2 (by decide) (by decide) (by decide) (by decide)
      (by decide) (by decide),
    by decide, by decide⟩

end PwKvs
